import Mathlib

/-!
Verification of the script segmentation and wrapping engine of
`src/assets/js/multilingual.js` (class `Multilingual`).

The engine is embedded shallowly:

* a JavaScript string is a `List Nat` of its UTF-16 code units, since
  `segmentText` iterates with `text[i]` one code unit at a time;
* `detectScript` becomes a pure function on code-point values
  (`char.codePointAt(0)` of a one-unit string is that unit's value);
* JavaScript `null` / absent values become `Option`;
* the relevant parts of the merged configuration object become `Config`.

Character-class tests used by the source:

* `/[\s\p{P}]/u` — ECMAScript `\s` (WhiteSpace ∪ LineTerminator) plus the
  Unicode general category P, tabulated below for the BMP (code units);
* `String.prototype.trim` — removes ECMAScript `\s` characters from both ends.
-/

set_option maxRecDepth 100000

namespace Multilingual

/-- ECMAScript WhiteSpace ∪ LineTerminator: the set matched by `\s` and
removed by `String.prototype.trim`. -/
def isJsWhitespace (c : Nat) : Bool :=
  (c = 0x9) || (c = 0xA) || (c = 0xB) || (c = 0xC) || (c = 0xD) || (c = 0x20) ||
  (c = 0xA0) || (c = 0x1680) || (decide (0x2000 ≤ c) && decide (c ≤ 0x200A)) ||
  (c = 0x2028) || (c = 0x2029) || (c = 0x202F) || (c = 0x205F) || (c = 0x3000) || (c = 0xFEFF)

/-- Model of `String.prototype.trim`: drop `\s` characters from both ends. -/
def jsTrim (l : List Nat) : List Nat :=
  ((l.dropWhile isJsWhitespace).reverse.dropWhile isJsWhitespace).reverse

/-- Inclusive code-unit ranges of the Unicode general category P (punctuation)
restricted to the Basic Multilingual Plane: the `\p{P}` part of the
`/[\s\p{P}]/u` test in `segmentText` (applied to single code units). -/
def punctRanges : List (Nat × Nat) := [
  (0x0021, 0x0023), (0x0025, 0x002A), (0x002C, 0x002F),
  (0x003A, 0x003B), (0x003F, 0x0040), (0x005B, 0x005D),
  (0x005F, 0x005F), (0x007B, 0x007B), (0x007D, 0x007D),
  (0x00A1, 0x00A1), (0x00A7, 0x00A7), (0x00AB, 0x00AB),
  (0x00B6, 0x00B7), (0x00BB, 0x00BB), (0x00BF, 0x00BF),
  (0x037E, 0x037E), (0x0387, 0x0387), (0x055A, 0x055F),
  (0x0589, 0x058A), (0x05BE, 0x05BE), (0x05C0, 0x05C0),
  (0x05C3, 0x05C3), (0x05C6, 0x05C6), (0x05F3, 0x05F4),
  (0x0609, 0x060A), (0x060C, 0x060D), (0x061B, 0x061B),
  (0x061D, 0x061F), (0x066A, 0x066D), (0x06D4, 0x06D4),
  (0x0700, 0x070D), (0x07F7, 0x07F9), (0x0830, 0x083E),
  (0x085E, 0x085E), (0x0964, 0x0965), (0x0970, 0x0970),
  (0x09FD, 0x09FD), (0x0A76, 0x0A76), (0x0AF0, 0x0AF0),
  (0x0C77, 0x0C77), (0x0C84, 0x0C84), (0x0DF4, 0x0DF4),
  (0x0E4F, 0x0E4F), (0x0E5A, 0x0E5B), (0x0F04, 0x0F12),
  (0x0F14, 0x0F14), (0x0F3A, 0x0F3D), (0x0F85, 0x0F85),
  (0x0FD0, 0x0FD4), (0x0FD9, 0x0FDA), (0x104A, 0x104F),
  (0x10FB, 0x10FB), (0x1360, 0x1368), (0x1400, 0x1400),
  (0x166E, 0x166E), (0x169B, 0x169C), (0x16EB, 0x16ED),
  (0x1735, 0x1736), (0x17D4, 0x17D6), (0x17D8, 0x17DA),
  (0x1800, 0x180A), (0x1944, 0x1945), (0x1A1E, 0x1A1F),
  (0x1AA0, 0x1AA6), (0x1AA8, 0x1AAD), (0x1B5A, 0x1B60),
  (0x1B7D, 0x1B7E), (0x1BFC, 0x1BFF), (0x1C3B, 0x1C3F),
  (0x1C7E, 0x1C7F), (0x1CC0, 0x1CC7), (0x1CD3, 0x1CD3),
  (0x2010, 0x2027), (0x2030, 0x2043), (0x2045, 0x2051),
  (0x2053, 0x205E), (0x207D, 0x207E), (0x208D, 0x208E),
  (0x2308, 0x230B), (0x2329, 0x232A), (0x2768, 0x2775),
  (0x27C5, 0x27C6), (0x27E6, 0x27EF), (0x2983, 0x2998),
  (0x29D8, 0x29DB), (0x29FC, 0x29FD), (0x2CF9, 0x2CFC),
  (0x2CFE, 0x2CFF), (0x2D70, 0x2D70), (0x2E00, 0x2E2E),
  (0x2E30, 0x2E4F), (0x2E52, 0x2E5D), (0x3001, 0x3003),
  (0x3008, 0x3011), (0x3014, 0x301F), (0x3030, 0x3030),
  (0x303D, 0x303D), (0x30A0, 0x30A0), (0x30FB, 0x30FB),
  (0xA4FE, 0xA4FF), (0xA60D, 0xA60F), (0xA673, 0xA673),
  (0xA67E, 0xA67E), (0xA6F2, 0xA6F7), (0xA874, 0xA877),
  (0xA8CE, 0xA8CF), (0xA8F8, 0xA8FA), (0xA8FC, 0xA8FC),
  (0xA92E, 0xA92F), (0xA95F, 0xA95F), (0xA9C1, 0xA9CD),
  (0xA9DE, 0xA9DF), (0xAA5C, 0xAA5F), (0xAADE, 0xAADF),
  (0xAAF0, 0xAAF1), (0xABEB, 0xABEB), (0xFD3E, 0xFD3F),
  (0xFE10, 0xFE19), (0xFE30, 0xFE52), (0xFE54, 0xFE61),
  (0xFE63, 0xFE63), (0xFE68, 0xFE68), (0xFE6A, 0xFE6B),
  (0xFF01, 0xFF03), (0xFF05, 0xFF0A), (0xFF0C, 0xFF0F),
  (0xFF1A, 0xFF1B), (0xFF1F, 0xFF20), (0xFF3B, 0xFF3D),
  (0xFF3F, 0xFF3F), (0xFF5B, 0xFF5B), (0xFF5D, 0xFF5D),
  (0xFF5F, 0xFF65)]

/-- The `/[\s\p{P}]/u` test of `segmentText`, on one UTF-16 code unit. -/
def isWSP (c : Nat) : Bool :=
  isJsWhitespace c || punctRanges.any (fun r => decide (r.1 ≤ c) && decide (c ≤ r.2))

/-- Table `this.scriptRanges` — Unicode ranges for each writing system, in the
object's (insertion-order) iteration order. -/
def scriptRanges : List (String × List (Nat × Nat)) := [
  ("latin", [(0x0041, 0x005A), (0x0061, 0x007A), (0x00C0, 0x00FF),
             (0x0100, 0x017F), (0x0180, 0x024F), (0x1E00, 0x1EFF)]),
  ("korean", [(0xAC00, 0xD7AF), (0x1100, 0x11FF), (0x3130, 0x318F),
              (0xA960, 0xA97F), (0xD7B0, 0xD7FF)]),
  ("japanese", [(0x3040, 0x309F), (0x30A0, 0x30FF), (0x31F0, 0x31FF)]),
  ("chinese", [(0x4E00, 0x9FFF), (0x3400, 0x4DBF), (0x20000, 0x2A6DF),
               (0x2A700, 0x2B73F), (0x2B740, 0x2B81F), (0x2B820, 0x2CEAF),
               (0x2CEB0, 0x2EBEF), (0xF900, 0xFAFF)]),
  ("arabic", [(0x0600, 0x06FF), (0x0750, 0x077F), (0x08A0, 0x08FF),
              (0xFB50, 0xFDFF), (0xFE70, 0xFEFF)]),
  ("cyrillic", [(0x0400, 0x04FF), (0x0500, 0x052F), (0x2DE0, 0x2DFF),
                (0xA640, 0xA69F)]),
  ("greek", [(0x0370, 0x03FF), (0x1F00, 0x1FFF)]),
  ("hebrew", [(0x0590, 0x05FF), (0xFB1D, 0xFB4F)]),
  ("thai", [(0x0E00, 0x0E7F)]),
  ("devanagari", [(0x0900, 0x097F)])]

/-- First script (in table order) one of whose ranges contains the code
point — the double loop of `detectScript`, which returns on first match. -/
def findScript : List (String × List (Nat × Nat)) → Nat → Option String
  | [], _ => none
  | p :: rest, c =>
    if p.2.any (fun r => decide (r.1 ≤ c) && decide (c ≤ r.2)) then some p.1
    else findScript rest c

/-- Association-list lookup with `Nat` keys (a JS object keyed by
single characters; first binding wins, matching a built map). -/
def lookupNat : List (Nat × String) → Nat → Option String
  | [], _ => none
  | p :: rest, c => if p.1 = c then some p.2 else lookupNat rest c

/-- Association-list lookup with `String` keys. -/
def lookupStr : List (String × String) → String → Option String
  | [], _ => none
  | p :: rest, k => if p.1 = k then some p.2 else lookupStr rest k

/-- Association-list lookup on `Nat × Nat` pairs (first component key). -/
def lookupPair : List (Nat × Nat) → Nat → Option Nat
  | [], _ => none
  | p :: rest, c => if p.1 = c then some p.2 else lookupPair rest c

/-- The `cssClasses` sub-configuration. `wrapper = ""` models an absent/empty
wrapper class and `scriptSpecific = []` an absent `scriptSpecific` map,
which behave identically in the source (falsy / missed lookups). -/
structure CssClasses where
  wrapper : String
  useShortNames : Bool
  scriptSpecific : List (String × String)
deriving DecidableEq

/-- The parts of the merged configuration that the segmentation and
wrapping functions read. `glyphOverrideMap` is the per-character map built
in the constructor from `config.glyphOverrides`. -/
structure Config where
  preserveWhitespace : Bool
  minSegmentLength : Nat
  glyphOverrideMap : List (Nat × String)
  languageOverrides : List (String × String)
  cssClasses : CssClasses
deriving DecidableEq

/-- Model of `DEFAULT_CONFIG`: `preserveWhitespace: true`, `minSegmentLength: 1`,
no glyph overrides, no language overrides, empty wrapper class,
`useShortNames: true`, no `scriptSpecific` classes. -/
def defaultConfig : Config :=
  { preserveWhitespace := true
    minSegmentLength := 1
    glyphOverrideMap := []
    languageOverrides := []
    cssClasses := { wrapper := "", useShortNames := true, scriptSpecific := [] } }

/-- Fallback of the range scan in `detectScript`: default to `latin` for
characters in no configured range. -/
def rangeScriptOrLatin (c : Nat) : String :=
  match findScript scriptRanges c with
  | some s => s
  | none => "latin"

/-- Model of `detectScript(char)`. The glyph-override value is used only when truthy
(`if (this.glyphOverrideMap[char])`), so an empty-string override falls
through to the range scan. -/
def detectScript (cfg : Config) (c : Nat) : String :=
  match lookupNat cfg.glyphOverrideMap c with
  | some s => if s = "" then rangeScriptOrLatin c else s
  | none => rangeScriptOrLatin c

/-- Base entries of `this.scriptToLang` (before `languageOverrides`). -/
def scriptToLangBase : List (String × String) :=
  [("latin", "en"), ("korean", "ko"), ("japanese", "ja"), ("chinese", "zh"),
   ("arabic", "ar"), ("cyrillic", "ru"), ("greek", "el"), ("hebrew", "he"),
   ("thai", "th"), ("devanagari", "hi")]

/-- Property access `obj[script]` where `script` may be JS `null`: the key
is then the string `"null"`. -/
def jsKey : Option String → String
  | none => "null"
  | some s => s

/-- Lookup `this.scriptToLang[currentScript]` on the object
`{...base, ...languageOverrides}`: overrides shadow base entries; a missed
lookup is `undefined` (`none`). -/
def mkLang (cfg : Config) (sc : Option String) : Option String :=
  match lookupStr cfg.languageOverrides (jsKey sc) with
  | some v => some v
  | none => lookupStr scriptToLangBase (jsKey sc)

/-- Table `this.pairedPunctuation` — opening glyph to closing glyph, with the
source's duplicate straight-quote entries kept (the file stores the
"curly" quote pairs as straight quotes, so `0x22` and `0x27` each occur
twice with identical values, exactly as a JS object would merge them). -/
def pairedPunctuation : List (Nat × Nat) :=
  [(0x28, 0x29), (0x5B, 0x5D), (0x7B, 0x7D), (0x22, 0x22), (0x27, 0x27),
   (0x22, 0x22), (0x27, 0x27), (0xAB, 0xBB), (0x2039, 0x203A),
   (0x300C, 0x300D), (0x300E, 0x300F), (0x3008, 0x3009), (0x300A, 0x300B)]

/-- Lookup `this.pairedPunctuation[char]` (truthy iff the char is an opener). -/
def pairedLookup (c : Nat) : Option Nat := lookupPair pairedPunctuation c

/-- Lookup `this.closingToOpening[char]` — the reverse map built in the
constructor. -/
def closingLookup (c : Nat) : Option Nat :=
  lookupPair (pairedPunctuation.map (fun p => (p.2, p.1))) c

/-- Pop the nearest (searched from the top of the stack, i.e. from the end
of the list) entry pushed for the given opening glyph: the
`for (let j = pairStack.length - 1; ...)` search with `splice(j, 1)`.
Returns the entry's script and the remaining stack. -/
def removeLastMatch : List (Nat × String) → Nat → Option (String × List (Nat × String))
  | [], _ => none
  | e :: rest, op =>
    match removeLastMatch rest op with
    | some pr => some (pr.1, e :: pr.2)
    | none => if e.1 = op then some (e.2, rest) else none

/-- A segment as pushed by `segmentText`. `script` is `none` when the JS
value is `null` (a segment of pure context-free punctuation/whitespace);
`lang` is `none` when `scriptToLang` lookup yields `undefined`. -/
structure Segment where
  text : List Nat
  script : Option String
  lang : Option String
deriving DecidableEq

/-- The mutable locals of `segmentText`. The stack stores (opening glyph,
resolved script); the source also stores the index, which it never reads. -/
structure SegState where
  segments : List Segment
  currentSegment : List Nat
  currentScript : Option String
  lastNonWS : Option String
  pairStack : List (Nat × String)
deriving DecidableEq

/-- Initial state of the `segmentText` loop. -/
def initState : SegState :=
  { segments := [], currentSegment := [], currentScript := none,
    lastNonWS := none, pairStack := [] }

/-- Fallback chain `currentScript || lastNonWhitespaceScript || 'latin'` (scripts are
never the empty string, so JS truthiness is null-ness here). -/
def contextScript (st : SegState) : String :=
  match st.currentScript with
  | some s => s
  | none =>
    match st.lastNonWS with
    | some s => s
    | none => "latin"

/-- The emission filter guarding every `segments.push`:
`currentSegment.trim() && currentSegment.trim().length >= minSegmentLength`. -/
def passesFilter (cfg : Config) (t : List Nat) : Bool :=
  !(jsTrim t).isEmpty && decide (cfg.minSegmentLength ≤ (jsTrim t).length)

/-- Append the current segment to `segments` if it passes the emission
filter, else drop it (shared by all four push sites). -/
def flushSeg (cfg : Config) (st : SegState) : List Segment :=
  if passesFilter cfg st.currentSegment then
    st.segments ++ [{ text := st.currentSegment, script := st.currentScript,
                      lang := mkLang cfg st.currentScript }]
  else st.segments

/-- Closing-punctuation segment break: if a segment is open and its script
differs from the closer's resolved script, flush it and start a fresh
segment seeded with the closer's script. -/
def closeOnScript (cfg : Config) (s : String) (st : SegState) : SegState :=
  match st.currentScript with
  | some cur =>
    if cur = s then st
    else { st with segments := flushSeg cfg st, currentSegment := [],
                   currentScript := some s }
  | none => st

/-- The punctuation classification of the whitespace/punctuation branch:
opening glyphs take the context script and are pushed; closing glyphs take
their matched opener's script (else the context) and may break the
segment; all other whitespace/punctuation inherits
`currentScript || lastNonWhitespaceScript` (possibly null). Returns the
resolved `charScript` and the updated state. -/
def classifyPunct (cfg : Config) (st : SegState) (c : Nat) : Option String × SegState :=
  if (pairedLookup c).isSome then
    let s := contextScript st
    (some s, { st with pairStack := st.pairStack ++ [(c, s)] })
  else
    match closingLookup c with
    | some op =>
      match removeLastMatch st.pairStack op with
      | some pr => (some pr.1, closeOnScript cfg pr.1 { st with pairStack := pr.2 })
      | none =>
        let s := contextScript st
        (some s, closeOnScript cfg s st)
    | none =>
      match st.currentScript with
      | some s => (some s, st)
      | none => (st.lastNonWS, st)

/-- The look-ahead after appending a closing glyph: scan forward for the
first character failing `/[\s\p{P}]/u`; the segment is force-closed iff
that character's script differs from the closer's resolved script. -/
def lookDiff (cfg : Config) (cs : Option String) : List Nat → Bool
  | [] => false
  | c :: rest =>
    if isWSP c then lookDiff cfg cs rest
    else decide (some (detectScript cfg c) ≠ cs)

/-- Line `if (currentScript === null && charScript) currentScript = charScript`. -/
def setNullScript (cs : Option String) (st : SegState) : SegState :=
  if st.currentScript.isNone && cs.isSome then { st with currentScript := cs }
  else st

/-- Append `currentSegment += char`. -/
def appendChar (c : Nat) (st : SegState) : SegState :=
  { st with currentSegment := st.currentSegment ++ [c] }

/-- The force-close of the look-ahead rule: when the condition holds,
flush the current segment and reset to no open segment. -/
def forceCloseIf (cfg : Config) (b : Bool) (st : SegState) : SegState :=
  if b then
    { st with segments := flushSeg cfg st, currentSegment := [],
              currentScript := none }
  else st

/-- One loop iteration on a whitespace/punctuation code unit `c` with the
remaining input `rest` after it: classify, adopt the script if none is
set, append the character, then possibly force-close after a closing
glyph whose script differs from the last non-whitespace script. -/
def stepWSP (cfg : Config) (st : SegState) (c : Nat) (rest : List Nat) : SegState :=
  let p := classifyPunct cfg st c
  let st3 := appendChar c (setNullScript p.1 p.2)
  forceCloseIf cfg
    ((closingLookup c).isSome && decide (p.1 ≠ st3.lastNonWS) && lookDiff cfg p.1 rest)
    st3

/-- One loop iteration on an ordinary (non whitespace/punctuation) code
unit: detect its script, record it as last non-whitespace script, and
open / extend / break the current segment accordingly. -/
def stepChar (cfg : Config) (st : SegState) (c : Nat) : SegState :=
  let cs := detectScript cfg c
  let st1 := { st with lastNonWS := some cs }
  match st1.currentScript with
  | none => { st1 with currentScript := some cs,
                       currentSegment := st1.currentSegment ++ [c] }
  | some cur =>
    if cur = cs then { st1 with currentSegment := st1.currentSegment ++ [c] }
    else { st1 with segments := flushSeg cfg st1, currentSegment := [c],
                    currentScript := some cs }

/-- One iteration of the `segmentText` loop body. -/
def step (cfg : Config) (st : SegState) (c : Nat) (rest : List Nat) : SegState :=
  if cfg.preserveWhitespace && isWSP c then stepWSP cfg st c rest
  else stepChar cfg st c

/-- The `for (let i = 0; i < text.length; i++)` loop. -/
def segLoop (cfg : Config) : List Nat → SegState → SegState
  | [], st => st
  | c :: rest, st => segLoop cfg rest (step cfg st c rest)

/-- Model of `segmentText(text)`: run the loop from the initial state and flush the
final segment under the same filter. -/
def segmentText (cfg : Config) (text : List Nat) : List Segment :=
  flushSeg cfg (segLoop cfg text initState)

/-- Table `this.scriptToShortClass`. -/
def scriptToShortClass : List (String × String) :=
  [("latin", "ml-en"), ("korean", "ml-ko"), ("japanese", "ml-ja"),
   ("chinese", "ml-zh"), ("arabic", "ml-ar"), ("cyrillic", "ml-ru"),
   ("greek", "ml-el"), ("hebrew", "ml-he"), ("thai", "ml-th"),
   ("devanagari", "ml-hi")]

/-- Accumulation `cssClass += (cssClass ? ' ' : '') + cls`. -/
def appendClass (acc cls : String) : String :=
  if acc = "" then cls else acc ++ " " ++ cls

/-- The CSS class list built by `wrapSegments`: wrapper class, then the
short script class when enabled, then any script-specific class; each
candidate is appended only when truthy (non-empty). -/
def buildCssClass (cc : CssClasses) (script : Option String) : String :=
  let c0 := cc.wrapper
  let c1 :=
    match (if cc.useShortNames then lookupStr scriptToShortClass (jsKey script) else none) with
    | some v => if v = "" then c0 else appendClass c0 v
    | none => c0
  match lookupStr cc.scriptSpecific (jsKey script) with
  | some v => if v = "" then c1 else appendClass c1 v
  | none => c1

/-- UTF-16 code units of an ASCII string literal (markup text). -/
def asUnits (s : String) : List Nat := s.toList.map Char.toNat

/-- Interpolation `${segment.lang}`: JS `undefined` prints as
`"undefined"`. -/
def jsStringOfLang : Option String → String
  | none => "undefined"
  | some s => s

/-- Interpolation `${segment.script}`: JS `null` prints as `"null"`. -/
def jsStringOfScript : Option String → String
  | none => "null"
  | some s => s

/-- Per-segment render of `wrapSegments`: whitespace-only (post-trim-empty)
segments pass through as raw text; otherwise a `<span>` with `lang`,
`data-script`, an optional `class` attribute, and the untrimmed text. -/
def wrapOne (cfg : Config) (seg : Segment) : List Nat :=
  if (jsTrim seg.text).isEmpty then seg.text
  else
    let cssClass := buildCssClass cfg.cssClasses seg.script
    let classAttr := if cssClass = "" then "" else " class=\"" ++ cssClass ++ "\""
    asUnits ("<span lang=\"" ++ jsStringOfLang seg.lang ++ "\" data-script=\"" ++
             jsStringOfScript seg.script ++ "\"" ++ classAttr ++ ">") ++
    seg.text ++ asUnits "</span>"

/-- Model of `wrapSegments(segments)`: `segments.map(...).join('')`. -/
def wrapSegments (cfg : Config) (segs : List Segment) : List Nat :=
  (segs.map (wrapOne cfg)).flatten

/-- Modelled from the claim's words (C9): the exact rendered string
`<span lang="{lang}" data-script="{script}"{classAttr}>{text}</span>`,
with `{classAttr}` equal to `' class="{classes}"'` when the computed class
list is non-empty and absent otherwise, raw-text pass-through for
trim-empty segments, and attribute values inserted literally. To be
compared with `wrapOne` / `wrapSegments` above, which are translated from
the source. -/
def renderSpecC9 (cfg : Config) (seg : Segment) : List Nat :=
  if (jsTrim seg.text).isEmpty then seg.text
  else
    let classes := buildCssClass cfg.cssClasses seg.script
    asUnits "<span lang=\"" ++ asUnits (jsStringOfLang seg.lang) ++
    asUnits "\" data-script=\"" ++ asUnits (jsStringOfScript seg.script) ++
    asUnits "\"" ++
    (if classes = "" then [] else asUnits (" class=\"" ++ classes ++ "\"")) ++
    asUnits ">" ++ seg.text ++ asUnits "</span>"

/-- Containment: `t` occurs contiguously inside `m`. -/
def within (t m : List Nat) : Prop := ∃ a b, m = a ++ t ++ b

/-- Suffix relation: `t` is a suffix of `m`. -/
def suffixOf (t m : List Nat) : Prop := ∃ a, m = a ++ t

/-- Interleave whitespace chunks before each text and flatten:
`w₀ ++ t₀ ++ w₁ ++ t₁ ++ ...` (used to state what `segmentText` drops). -/
def altJoin (ws ts : List (List Nat)) : List Nat :=
  (List.zipWith (fun w t => w ++ t) ws ts).flatten

/-- Reconstruction invariant of the `segmentText` loop: the consumed input
is the emitted segments' texts in order, each preceded by a (possibly
empty) dropped all-whitespace chunk, then a pending dropped whitespace
run, then the segment being built. -/
def Recon (st : SegState) (consumed : List Nat) : Prop :=
  ∃ ws pend,
    ws.length = st.segments.length ∧
    (∀ u ∈ ws, ∀ x ∈ u, isJsWhitespace x = true) ∧
    (∀ x ∈ pend, isJsWhitespace x = true) ∧
    consumed = altJoin ws (st.segments.map Segment.text) ++ pend ++ st.currentSegment

/-- The emission filter as a proposition on a segment. -/
def segPasses (cfg : Config) (seg : Segment) : Prop :=
  jsTrim seg.text ≠ [] ∧ cfg.minSegmentLength ≤ (jsTrim seg.text).length


/-! ### Basic facts about the emission filter, trimming and containment -/

theorem passesFilter_iff (cfg : Config) (t : List Nat) :
    passesFilter cfg t = true ↔
      jsTrim t ≠ [] ∧ cfg.minSegmentLength ≤ (jsTrim t).length := by
  simp [passesFilter, List.isEmpty_iff]

theorem flushSeg_spec (cfg : Config) (st : SegState) :
    (passesFilter cfg st.currentSegment = true ∧
      flushSeg cfg st = st.segments ++
        [{ text := st.currentSegment, script := st.currentScript,
           lang := mkLang cfg st.currentScript }]) ∨
    (passesFilter cfg st.currentSegment = false ∧ flushSeg cfg st = st.segments) := by
  by_cases h : passesFilter cfg st.currentSegment = true
  · exact .inl ⟨h, by simp [flushSeg, h]⟩
  · refine .inr ⟨by simpa using h, by simp [flushSeg, h]⟩

theorem mem_flushSeg {cfg : Config} {st : SegState} {s : Segment}
    (hs : s ∈ flushSeg cfg st) :
    s ∈ st.segments ∨
      (s.text = st.currentSegment ∧ s.script = st.currentScript ∧ segPasses cfg s) := by
  rcases flushSeg_spec cfg st with ⟨hp, he⟩ | ⟨hp, he⟩
  · rw [he] at hs
    rcases List.mem_append.mp hs with h | h
    · exact .inl h
    · simp only [List.mem_singleton] at h
      subst h
      have := (passesFilter_iff cfg st.currentSegment).mp hp
      exact .inr ⟨rfl, rfl, this⟩
  · rw [he] at hs
    exact .inl hs

theorem dropWhile_head_false {p : Nat → Bool} :
    ∀ {l : List Nat} {c : Nat} {r : List Nat}, l.dropWhile p = c :: r → p c = false := by
  intro l
  induction l with
  | nil => intro c r h; simp [List.dropWhile] at h
  | cons x xs ih =>
    intro c r h
    rw [List.dropWhile_cons] at h
    by_cases hx : p x
    · rw [if_pos hx] at h; exact ih h
    · rw [if_neg hx] at h
      cases h
      simpa using hx

theorem dropWhile_suffixOf (p : Nat → Bool) (l : List Nat) :
    suffixOf (l.dropWhile p) l := by
  induction l with
  | nil => exact ⟨[], rfl⟩
  | cons x xs ih =>
    rw [List.dropWhile_cons]
    by_cases hx : p x
    · rw [if_pos hx]
      obtain ⟨a, ha⟩ := ih
      exact ⟨x :: a, by rw [List.cons_append, ← ha]⟩
    · rw [if_neg hx]
      exact ⟨[], rfl⟩

theorem takeWhile_all {p : Nat → Bool} :
    ∀ {l : List Nat}, ∀ x ∈ l.takeWhile p, p x = true := by
  intro l
  induction l with
  | nil => simp
  | cons y ys ih =>
    intro x hx
    rw [List.takeWhile_cons] at hx
    by_cases hy : p y
    · rw [if_pos hy] at hx
      rcases List.mem_cons.mp hx with rfl | hx
      · exact hy
      · exact ih x hx
    · rw [if_neg hy] at hx
      simp at hx

theorem dropWhile_nil_all {p : Nat → Bool} :
    ∀ {l : List Nat}, l.dropWhile p = [] → ∀ x ∈ l, p x = true := by
  intro l
  induction l with
  | nil => simp
  | cons y ys ih =>
    intro h x hx
    rw [List.dropWhile_cons] at h
    by_cases hy : p y
    · rw [if_pos hy] at h
      rcases List.mem_cons.mp hx with rfl | hx
      · exact hy
      · exact ih h x hx
    · rw [if_neg hy] at h
      cases h

theorem jsTrim_nil_all {l : List Nat} (h : jsTrim l = []) :
    ∀ x ∈ l, isJsWhitespace x = true := by
  unfold jsTrim at h
  have h1 : (l.dropWhile isJsWhitespace).reverse.dropWhile isJsWhitespace = [] := by
    have := congrArg List.reverse h
    simpa using this
  have h3 : ∀ x ∈ l.dropWhile isJsWhitespace, isJsWhitespace x = true := by
    intro x hx
    exact dropWhile_nil_all h1 x (by simpa using hx)
  intro x hx
  have hsplit : l.takeWhile isJsWhitespace ++ l.dropWhile isJsWhitespace = l :=
    List.takeWhile_append_dropWhile isJsWhitespace l
  rw [← hsplit] at hx
  rcases List.mem_append.mp hx with h4 | h4
  · exact takeWhile_all x h4
  · exact h3 x h4

theorem within_refl (l : List Nat) : within l l := ⟨[], [], by simp⟩

theorem within_trans {a b c : List Nat} (h1 : within a b) (h2 : within b c) :
    within a c := by
  obtain ⟨x, y, rfl⟩ := h1
  obtain ⟨u, v, rfl⟩ := h2
  exact ⟨u ++ x, y ++ v, by simp⟩

theorem suffixOf_within {t m : List Nat} (h : suffixOf t m) : within t m := by
  obtain ⟨a, rfl⟩ := h
  exact ⟨a, [], by simp⟩

theorem within_append_right {t m : List Nat} (h : within t m) (x : List Nat) :
    within t (m ++ x) := by
  obtain ⟨a, b, rfl⟩ := h
  exact ⟨a, b ++ x, by simp⟩

theorem suffixOf_append {t m : List Nat} (h : suffixOf t m) (x : List Nat) :
    suffixOf (t ++ x) (m ++ x) := by
  obtain ⟨a, rfl⟩ := h
  exact ⟨a, by simp⟩

theorem suffixOf_nil (m : List Nat) : suffixOf [] m := ⟨m, by simp⟩

theorem suffixOf_single (m : List Nat) (c : Nat) : suffixOf [c] (m ++ [c]) := ⟨m, rfl⟩

theorem within_length {t m : List Nat} (h : within t m) : t.length ≤ m.length := by
  obtain ⟨a, b, rfl⟩ := h
  simp
  omega

theorem within_reverse {t m : List Nat} (h : within t m) :
    within t.reverse m.reverse := by
  obtain ⟨a, b, rfl⟩ := h
  exact ⟨b.reverse, a.reverse, by simp⟩

theorem within_dropWhile {p : Nat → Bool} {c : Nat} {t' m : List Nat}
    (h : within (c :: t') m) (hc : p c = false) :
    within (c :: t') (m.dropWhile p) := by
  obtain ⟨a, b, rfl⟩ := h
  induction a with
  | nil =>
    refine ⟨[], b, ?_⟩
    simp [List.dropWhile_cons, hc]
  | cons x a' ih =>
    rw [List.cons_append, List.cons_append, List.dropWhile_cons]
    by_cases hx : p x
    · rw [if_pos hx]
      simpa using ih
    · rw [if_neg hx]
      exact ⟨x :: a', b, by simp⟩

theorem within_ltrim {p : Nat → Bool} {t m : List Nat} (h : within t m) :
    within (t.dropWhile p) (m.dropWhile p) := by
  cases ht : t.dropWhile p with
  | nil => exact ⟨[], m.dropWhile p, by simp⟩
  | cons c r =>
    have hc : p c = false := dropWhile_head_false ht
    have h1 : within (c :: r) t := by
      rw [← ht]
      exact suffixOf_within (dropWhile_suffixOf p t)
    exact within_dropWhile (within_trans h1 h) hc

theorem within_jsTrim {t m : List Nat} (h : within t m) :
    within (jsTrim t) (jsTrim m) := by
  unfold jsTrim
  exact within_reverse (within_ltrim (within_reverse (within_ltrim h)))

theorem jsTrim_length_mono {t m : List Nat} (h : within t m) :
    (jsTrim t).length ≤ (jsTrim m).length :=
  within_length (within_jsTrim h)

/-! ### Shape of one loop iteration -/

theorem flushSeg_pairStack (cfg : Config) (st : SegState) (stk : List (Nat × String)) :
    flushSeg cfg { st with pairStack := stk } = flushSeg cfg st := rfl

theorem flushSeg_lastNonWS (cfg : Config) (st : SegState) (x : Option String) :
    flushSeg cfg { st with lastNonWS := x } = flushSeg cfg st := rfl

theorem flushSeg_congr {cfg : Config} {st1 st2 : SegState}
    (h1 : st1.segments = st2.segments)
    (h2 : st1.currentSegment = st2.currentSegment)
    (h3 : st1.currentScript = st2.currentScript) :
    flushSeg cfg st1 = flushSeg cfg st2 := by
  unfold flushSeg
  rw [h1, h2, h3]

theorem setNullScript_segments (cs : Option String) (st : SegState) :
    (setNullScript cs st).segments = st.segments := by
  unfold setNullScript
  split <;> rfl

theorem setNullScript_currentSegment (cs : Option String) (st : SegState) :
    (setNullScript cs st).currentSegment = st.currentSegment := by
  unfold setNullScript
  split <;> rfl

theorem setNullScript_lastNonWS (cs : Option String) (st : SegState) :
    (setNullScript cs st).lastNonWS = st.lastNonWS := by
  unfold setNullScript
  split <;> rfl

theorem setNullScript_script (cs : Option String) (st : SegState) :
    (setNullScript cs st).currentScript = st.currentScript ∨
      (st.currentScript = none ∧ (setNullScript cs st).currentScript = cs) := by
  by_cases h : (st.currentScript.isNone && cs.isSome) = true
  · right
    refine ⟨?_, by simp [setNullScript, h]⟩
    cases hsc : st.currentScript with
    | none => rfl
    | some s => rw [hsc] at h; simp at h
  · left
    simp [setNullScript, h]

theorem appendChar_segments (c : Nat) (st : SegState) :
    (appendChar c st).segments = st.segments := rfl

theorem appendChar_currentSegment (c : Nat) (st : SegState) :
    (appendChar c st).currentSegment = st.currentSegment ++ [c] := rfl

theorem appendChar_script (c : Nat) (st : SegState) :
    (appendChar c st).currentScript = st.currentScript := rfl

theorem forceCloseIf_shape (cfg : Config) (b : Bool) (st : SegState) :
    forceCloseIf cfg b st = st ∨
      ((forceCloseIf cfg b st).segments = flushSeg cfg st ∧
       (forceCloseIf cfg b st).currentSegment = [] ∧
       (forceCloseIf cfg b st).currentScript = none) := by
  unfold forceCloseIf
  cases b
  · exact .inl rfl
  · exact .inr ⟨rfl, rfl, rfl⟩

theorem classifyPunct_shape (cfg : Config) (st : SegState) (c : Nat) :
    ((classifyPunct cfg st c).2.segments = st.segments ∧
     (classifyPunct cfg st c).2.currentSegment = st.currentSegment ∧
     (classifyPunct cfg st c).2.currentScript = st.currentScript ∧
     (classifyPunct cfg st c).2.lastNonWS = st.lastNonWS) ∨
    (∃ s', (classifyPunct cfg st c).1 = some s' ∧
      (classifyPunct cfg st c).2.segments = flushSeg cfg st ∧
      (classifyPunct cfg st c).2.currentSegment = [] ∧
      (classifyPunct cfg st c).2.currentScript = some s' ∧
      (classifyPunct cfg st c).2.lastNonWS = st.lastNonWS) := by
  by_cases hp : (pairedLookup c).isSome = true
  · left
    refine ⟨?_, ?_, ?_, ?_⟩ <;> simp [classifyPunct, hp]
  · cases hcl : closingLookup c with
    | none =>
      left
      cases hsc : st.currentScript with
      | none =>
        refine ⟨?_, ?_, ?_, ?_⟩ <;> simp [classifyPunct, hp, hcl, hsc]
      | some s =>
        refine ⟨?_, ?_, ?_, ?_⟩ <;> simp [classifyPunct, hp, hcl, hsc]
    | some op =>
      cases hrm : removeLastMatch st.pairStack op with
      | none =>
        left
        cases hsc : st.currentScript with
        | none =>
          refine ⟨?_, ?_, ?_, ?_⟩ <;>
            simp [classifyPunct, closeOnScript, hp, hcl, hrm, hsc]
        | some cur =>
          have hctx : contextScript st = cur := by simp [contextScript, hsc]
          refine ⟨?_, ?_, ?_, ?_⟩ <;>
            simp [classifyPunct, closeOnScript, hp, hcl, hrm, hsc, hctx]
      | some pr =>
        cases hsc : st.currentScript with
        | none =>
          left
          refine ⟨?_, ?_, ?_, ?_⟩ <;>
            simp [classifyPunct, closeOnScript, hp, hcl, hrm, hsc]
        | some cur =>
          by_cases heq : cur = pr.1
          · left
            refine ⟨?_, ?_, ?_, ?_⟩ <;>
              simp [classifyPunct, closeOnScript, hp, hcl, hrm, hsc, heq]
          · right
            refine ⟨pr.1, ?_, ?_, ?_, ?_, ?_⟩
            · simp [classifyPunct, closeOnScript, hp, hcl, hrm, hsc, heq]
            · have : (classifyPunct cfg st c).2.segments =
                  flushSeg cfg { st with pairStack := pr.2 } := by
                simp [classifyPunct, closeOnScript, hp, hcl, hrm, hsc, heq]
              rw [this, flushSeg_pairStack]
            · simp [classifyPunct, closeOnScript, hp, hcl, hrm, hsc, heq]
            · simp [classifyPunct, closeOnScript, hp, hcl, hrm, hsc, heq]
            · simp [classifyPunct, closeOnScript, hp, hcl, hrm, hsc, heq]

theorem step_eq_stepWSP {cfg : Config} {c : Nat} (st : SegState) (rest : List Nat)
    (hw : (cfg.preserveWhitespace && isWSP c) = true) :
    step cfg st c rest = stepWSP cfg st c rest := by
  simp only [step]
  rw [if_pos hw]

theorem step_eq_stepChar {cfg : Config} {c : Nat} (st : SegState) (rest : List Nat)
    (hw : ¬ (cfg.preserveWhitespace && isWSP c) = true) :
    step cfg st c rest = stepChar cfg st c := by
  simp only [step]
  rw [if_neg hw]

theorem step_shape (cfg : Config) (st : SegState) (c : Nat) (rest : List Nat) :
    ∃ stMid : SegState,
      ((stMid.segments = st.segments ∧
        stMid.currentSegment = st.currentSegment ++ [c] ∧
        (st.currentScript = none ∨ stMid.currentScript = st.currentScript) ∧
        (isWSP c = true ∨ stMid.currentScript = some (detectScript cfg c))) ∨
       (stMid.segments = flushSeg cfg st ∧
        stMid.currentSegment = [c] ∧
        (isWSP c = true ∨ stMid.currentScript = some (detectScript cfg c)))) ∧
      (step cfg st c rest = stMid ∨
        ((step cfg st c rest).segments = flushSeg cfg stMid ∧
         (step cfg st c rest).currentSegment = [] ∧
         (step cfg st c rest).currentScript = none)) := by
  by_cases hw : (cfg.preserveWhitespace && isWSP c) = true
  · have hwsp : isWSP c = true := by
      cases h1 : cfg.preserveWhitespace <;> cases h2 : isWSP c <;> simp_all
    rw [step_eq_stepWSP st rest hw]
    have hsw : stepWSP cfg st c rest =
        forceCloseIf cfg
          ((closingLookup c).isSome &&
            decide ((classifyPunct cfg st c).1 ≠
              (appendChar c (setNullScript (classifyPunct cfg st c).1
                (classifyPunct cfg st c).2)).lastNonWS) &&
            lookDiff cfg (classifyPunct cfg st c).1 rest)
          (appendChar c (setNullScript (classifyPunct cfg st c).1
            (classifyPunct cfg st c).2)) := rfl
    rw [hsw]
    refine ⟨appendChar c (setNullScript (classifyPunct cfg st c).1
      (classifyPunct cfg st c).2), ?_, ?_⟩
    · rcases classifyPunct_shape cfg st c with ⟨h1, h2, h3, h4⟩ |
        ⟨s', hs', h1, h2, h3, h4⟩
      · left
        refine ⟨?_, ?_, ?_, .inl hwsp⟩
        · rw [appendChar_segments, setNullScript_segments]
          exact h1
        · rw [appendChar_currentSegment, setNullScript_currentSegment, h2]
        · rcases setNullScript_script (classifyPunct cfg st c).1
            (classifyPunct cfg st c).2 with h5 | ⟨h5, _⟩
          · right
            rw [appendChar_script, h5, h3]
          · left
            rw [← h3]
            exact h5
      · right
        refine ⟨?_, ?_, .inl hwsp⟩
        · rw [appendChar_segments, setNullScript_segments]
          exact h1
        · rw [appendChar_currentSegment, setNullScript_currentSegment, h2]
          rfl
    · rcases forceCloseIf_shape cfg
        ((closingLookup c).isSome &&
          decide ((classifyPunct cfg st c).1 ≠
            (appendChar c (setNullScript (classifyPunct cfg st c).1
              (classifyPunct cfg st c).2)).lastNonWS) &&
          lookDiff cfg (classifyPunct cfg st c).1 rest)
        (appendChar c (setNullScript (classifyPunct cfg st c).1
          (classifyPunct cfg st c).2)) with h | ⟨ha, hb, hc2⟩
      · exact .inl h
      · exact .inr ⟨ha, hb, hc2⟩
  · rw [step_eq_stepChar st rest hw]
    cases hsc : st.currentScript with
    | none =>
      refine ⟨⟨st.segments, st.currentSegment ++ [c], some (detectScript cfg c),
        some (detectScript cfg c), st.pairStack⟩,
        .inl ⟨rfl, rfl, .inl rfl, .inr rfl⟩, .inl ?_⟩
      simp [stepChar, hsc]
    | some cur =>
      by_cases hcs : cur = detectScript cfg c
      · refine ⟨⟨st.segments, st.currentSegment ++ [c], some cur,
          some (detectScript cfg c), st.pairStack⟩,
          .inl ⟨rfl, rfl, .inr rfl, .inr (by rw [hcs])⟩, .inl ?_⟩
        simp [stepChar, hsc, hcs]
      · refine ⟨⟨flushSeg cfg st, [c], some (detectScript cfg c),
          some (detectScript cfg c), st.pairStack⟩,
          .inr ⟨rfl, rfl, .inr rfl⟩, .inl ?_⟩
        simp [stepChar, hsc, hcs]
        exact flushSeg_congr rfl rfl hsc.symm

theorem segLoop_ind (cfg : Config) (Q : Nat → Prop) (P : SegState → List Nat → Prop)
    (hstep : ∀ st c rest consumed, Q c → (∀ x ∈ rest, Q x) →
      P st consumed → P (step cfg st c rest) (consumed ++ [c])) :
    ∀ todo st consumed, (∀ x ∈ todo, Q x) → P st consumed →
      P (segLoop cfg todo st) (consumed ++ todo) := by
  intro todo
  induction todo with
  | nil =>
    intro st consumed _ h
    simpa [segLoop] using h
  | cons c rest ih =>
    intro st consumed hq h
    have h1 := hstep st c rest consumed (hq c (List.mem_cons_self c rest))
      (fun x hx => hq x (List.mem_cons_of_mem c hx)) h
    have h2 := ih (step cfg st c rest) (consumed ++ [c])
      (fun x hx => hq x (List.mem_cons_of_mem c hx)) h1
    simpa [segLoop, List.append_assoc] using h2

theorem segLoop_ind_start (cfg : Config) (Q : Nat → Prop)
    (P : SegState → List Nat → Prop)
    (hstep : ∀ st c rest consumed, Q c → (∀ x ∈ rest, Q x) →
      P st consumed → P (step cfg st c rest) (consumed ++ [c]))
    (text : List Nat) (hq : ∀ x ∈ text, Q x) (hinit : P initState []) :
    P (segLoop cfg text initState) text := by
  simpa using segLoop_ind cfg Q P hstep text initState [] hq hinit

/-! ### Every emitted segment passes the filter and sits inside the input -/

theorem step_segments_pass {cfg : Config} {st : SegState} {c : Nat}
    {rest : List Nat} (h : ∀ s ∈ st.segments, segPasses cfg s) :
    ∀ s ∈ (step cfg st c rest).segments, segPasses cfg s := by
  obtain ⟨stMid, hmid, hout⟩ := step_shape cfg st c rest
  have hm : ∀ s ∈ stMid.segments, segPasses cfg s := by
    rcases hmid with ⟨h1, _⟩ | ⟨h1, _⟩
    · rw [h1]; exact h
    · rw [h1]
      intro s hs
      rcases mem_flushSeg hs with h2 | ⟨_, _, h2⟩
      · exact h s h2
      · exact h2
  rcases hout with he | ⟨h1, _, _⟩
  · rw [he]; exact hm
  · rw [h1]
    intro s hs
    rcases mem_flushSeg hs with h2 | ⟨_, _, h2⟩
    · exact hm s h2
    · exact h2

theorem segmentText_pass (cfg : Config) (text : List Nat) :
    ∀ s ∈ segmentText cfg text, segPasses cfg s := by
  have hloop : ∀ s ∈ (segLoop cfg text initState).segments, segPasses cfg s :=
    segLoop_ind_start cfg (fun _ => True)
      (fun st _ => ∀ s ∈ st.segments, segPasses cfg s)
      (fun st c rest consumed _ _ h => step_segments_pass h) text
      (fun _ _ => trivial) (by intro s hs; simp [initState] at hs)
  intro s hs
  unfold segmentText at hs
  rcases mem_flushSeg hs with h2 | ⟨_, _, h2⟩
  · exact hloop s h2
  · exact h2

theorem step_within {cfg : Config} {st : SegState} {c : Nat} {rest : List Nat}
    {consumed : List Nat}
    (h : (∀ s ∈ st.segments, within s.text consumed) ∧
      suffixOf st.currentSegment consumed) :
    (∀ s ∈ (step cfg st c rest).segments, within s.text (consumed ++ [c])) ∧
      suffixOf (step cfg st c rest).currentSegment (consumed ++ [c]) := by
  obtain ⟨hsegs, hcur⟩ := h
  obtain ⟨stMid, hmid, hout⟩ := step_shape cfg st c rest
  have hmSegs : ∀ s ∈ stMid.segments, within s.text (consumed ++ [c]) := by
    rcases hmid with ⟨h1, _, _, _⟩ | ⟨h1, _, _⟩
    · rw [h1]
      intro s hs
      exact within_append_right (hsegs s hs) [c]
    · rw [h1]
      intro s hs
      rcases mem_flushSeg hs with h2 | ⟨h2, _, _⟩
      · exact within_append_right (hsegs s h2) [c]
      · rw [h2]
        exact within_append_right (suffixOf_within hcur) [c]
  have hmCur : suffixOf stMid.currentSegment (consumed ++ [c]) := by
    rcases hmid with ⟨_, h2, _, _⟩ | ⟨_, h2, _⟩
    · rw [h2]
      exact suffixOf_append hcur [c]
    · rw [h2]
      exact suffixOf_single consumed c
  rcases hout with he | ⟨h1, h2, _⟩
  · rw [he]
    exact ⟨hmSegs, hmCur⟩
  · constructor
    · rw [h1]
      intro s hs
      rcases mem_flushSeg hs with h3 | ⟨h3, _, _⟩
      · exact hmSegs s h3
      · rw [h3]
        exact suffixOf_within hmCur
    · rw [h2]
      exact suffixOf_nil _

theorem segmentText_within (cfg : Config) (text : List Nat) :
    ∀ s ∈ segmentText cfg text, within s.text text := by
  have hloop := segLoop_ind_start cfg (fun _ => True)
    (fun st consumed => (∀ s ∈ st.segments, within s.text consumed) ∧
      suffixOf st.currentSegment consumed)
    (fun st c rest consumed _ _ h => step_within h) text (fun _ _ => trivial)
    ⟨by intro s hs; simp [initState] at hs, suffixOf_nil []⟩
  intro s hs
  unfold segmentText at hs
  rcases mem_flushSeg hs with h2 | ⟨h2, _, _⟩
  · exact hloop.1 s h2
  · rw [h2]
    exact suffixOf_within hloop.2

/-- C5: for the input "Hello 안녕하세요 world" under the default configuration,
`segmentText` returns exactly three segments in order: "Hello " as latin,
"안녕하세요 " as korean, and "world" as latin. -/
theorem c5_scenario_segments :
    segmentText defaultConfig
      [0x48, 0x65, 0x6C, 0x6C, 0x6F, 0x20, 0xC548, 0xB155, 0xD558, 0xC138,
       0xC694, 0x20, 0x77, 0x6F, 0x72, 0x6C, 0x64] =
      [{ text := [0x48, 0x65, 0x6C, 0x6C, 0x6F, 0x20], script := some "latin", lang := some "en" },
       { text := [0xC548, 0xB155, 0xD558, 0xC138, 0xC694, 0x20], script := some "korean", lang := some "ko" },
       { text := [0x77, 0x6F, 0x72, 0x6C, 0x64], script := some "latin", lang := some "en" }] := by
  rfl

/-- C3 fails on the code: for the input "(한글)" the segments holding '('
and ')' have script `latin`, not `korean` — the opening parenthesis takes
the context script at its position (no context yet, hence latin) and the
closing parenthesis inherits its matched opener's script. -/
theorem c3_refutation :
    ¬ (∀ seg ∈ segmentText defaultConfig [0x28, 0xD55C, 0xAE00, 0x29],
        (0x28 ∈ seg.text ∨ 0x29 ∈ seg.text) → seg.script = some "korean") := by
  decide

/-- C3 amended: for the input "(한글)" the engine emits "(" as latin,
"한글" as korean, and ")" as latin — both parentheses resolve to latin
(the opener's context script, there being no preceding script context),
not to the script of the enclosed Korean text. -/
theorem c3_amended_segments :
    segmentText defaultConfig [0x28, 0xD55C, 0xAE00, 0x29] =
      [{ text := [0x28], script := some "latin", lang := some "en" },
       { text := [0xD55C, 0xAE00], script := some "korean", lang := some "ko" },
       { text := [0x29], script := some "latin", lang := some "en" }] := by
  rfl

/-- C4 fails on the code: for the input "price: $5 (오천원)" no emitted
segment is the substring "(오천원)" with script korean — the opening
parenthesis stays in the preceding latin segment and the closing one forms
its own latin segment. -/
theorem c4_refutation :
    ¬ (∃ seg ∈ segmentText defaultConfig
        [0x70, 0x72, 0x69, 0x63, 0x65, 0x3A, 0x20, 0x24, 0x35, 0x20, 0x28,
         0xC624, 0xCC9C, 0xC6D0, 0x29],
        seg.text = [0x28, 0xC624, 0xCC9C, 0xC6D0, 0x29] ∧ seg.script = some "korean") := by
  decide

/-- C4 amended: digits and '$' classify as latin, and the input
"price: $5 (오천원)" segments as "price: $5 (" (latin), "오천원" (korean),
")" (latin): the Korean content forms its own korean segment but the
parentheses attach to latin segments. -/
theorem c4_amended_segments :
    detectScript defaultConfig 0x24 = "latin" ∧
    detectScript defaultConfig 0x35 = "latin" ∧
    segmentText defaultConfig
      [0x70, 0x72, 0x69, 0x63, 0x65, 0x3A, 0x20, 0x24, 0x35, 0x20, 0x28,
       0xC624, 0xCC9C, 0xC6D0, 0x29] =
      [{ text := [0x70, 0x72, 0x69, 0x63, 0x65, 0x3A, 0x20, 0x24, 0x35, 0x20, 0x28],
         script := some "latin", lang := some "en" },
       { text := [0xC624, 0xCC9C, 0xC6D0], script := some "korean", lang := some "ko" },
       { text := [0x29], script := some "latin", lang := some "en" }] := by
  exact ⟨rfl, rfl, rfl⟩

/-- C1 fails on the code: for the single-space input the default
configuration yields no segments at all, so the concatenation of the
segments' texts is empty and does not reconstruct the input. -/
theorem c1_refutation :
    ((segmentText defaultConfig [0x20]).map Segment.text).flatten ≠ [0x20] := by
  decide

theorem lookupNat_mem {m : List (Nat × String)} {c : Nat} {s : String}
    (h : lookupNat m c = some s) : ∃ p ∈ m, p.1 = c ∧ p.2 = s := by
  induction m with
  | nil => simp [lookupNat] at h
  | cons q rest ih =>
    simp only [lookupNat] at h
    by_cases hq : q.1 = c
    · rw [if_pos hq] at h
      exact ⟨q, List.mem_cons_self q rest, hq, Option.some.inj h⟩
    · rw [if_neg hq] at h
      obtain ⟨p, hp, he⟩ := ih h
      exact ⟨p, List.mem_cons_of_mem q hp, he⟩

theorem asUnits_append (a b : String) :
    asUnits (a ++ b) = asUnits a ++ asUnits b := by
  simp [asUnits]

theorem wrapOne_eq_renderSpecC9 (cfg : Config) (seg : Segment) :
    wrapOne cfg seg = renderSpecC9 cfg seg := by
  unfold wrapOne renderSpecC9
  by_cases h : (jsTrim seg.text).isEmpty = true
  · rw [if_pos h, if_pos h]
  · rw [if_neg h, if_neg h]
    by_cases hc : buildCssClass cfg.cssClasses seg.script = ""
    · simp [hc, asUnits_append]
    · simp [hc, asUnits_append]

/-- C7: every segment returned by `segmentText` passes the emission
filter: its trimmed text is non-empty and its trimmed length is at least
`minSegmentLength` — for every input, every configuration, and all three
emission sites (script change, closing-punctuation force-close, end of
input), since each push in the source is guarded by the same test. -/
theorem c7_emission_filter (cfg : Config) (text : List Nat) (seg : Segment)
    (h : seg ∈ segmentText cfg text) :
    jsTrim seg.text ≠ [] ∧ cfg.minSegmentLength ≤ (jsTrim seg.text).length :=
  segmentText_pass cfg text seg h

/-- Witness for C7 at the concrete input "ab" under the default
configuration. -/
theorem c7_emission_filter_witness :
    jsTrim [0x61, 0x62] ≠ [] ∧
      defaultConfig.minSegmentLength ≤ (jsTrim [0x61, 0x62]).length :=
  c7_emission_filter defaultConfig [0x61, 0x62]
    { text := [0x61, 0x62], script := some "latin", lang := some "en" }
    (by decide)

/-- C8: `segmentText` on the empty string returns no segments, and any
input whose trimmed length is below the configured `minSegmentLength`
yields no segments (each emitted segment's trimmed text sits inside the
input, so its trimmed length cannot exceed the input's); no error is
possible, the function being total. -/
theorem c8_empty_and_short_inputs :
    (∀ cfg : Config, segmentText cfg [] = []) ∧
    (∀ (cfg : Config) (text : List Nat),
      (jsTrim text).length < cfg.minSegmentLength → segmentText cfg text = []) := by
  constructor
  · intro cfg
    rfl
  · intro cfg text h
    rw [List.eq_nil_iff_forall_not_mem]
    intro seg hseg
    have hpass := segmentText_pass cfg text seg hseg
    have hmono := jsTrim_length_mono (segmentText_within cfg text seg hseg)
    have := hpass.2
    omega

/-- Witness for C8 at the single-space input under the default
configuration (trimmed length 0 < 1). -/
theorem c8_empty_and_short_inputs_witness :
    (jsTrim [0x20]).length < defaultConfig.minSegmentLength ∧
      segmentText defaultConfig [0x20] = [] :=
  ⟨by decide, c8_empty_and_short_inputs.2 defaultConfig [0x20] (by decide)⟩

/-- C2: `detectScript` is total and pure (a Lean function), and looks up
in this order: a truthy glyph override wins; otherwise the first script in
the fixed table iteration order with a range containing the code point;
otherwise `latin`. The hypothesis excludes degenerate empty-string
override values, which JavaScript treats as falsy. -/
theorem c2_detectScript_lookup_order (cfg : Config) (c : Nat)
    (hov : ∀ p ∈ cfg.glyphOverrideMap, p.2 ≠ "") :
    (∀ s, lookupNat cfg.glyphOverrideMap c = some s → detectScript cfg c = s) ∧
    (lookupNat cfg.glyphOverrideMap c = none →
      (∀ s, findScript scriptRanges c = some s → detectScript cfg c = s) ∧
      (findScript scriptRanges c = none → detectScript cfg c = "latin")) := by
  constructor
  · intro s hs
    have hne : s ≠ "" := by
      obtain ⟨p, hp, _, hp2⟩ := lookupNat_mem hs
      rw [← hp2]
      exact hov p hp
    simp [detectScript, hs, hne]
  · intro hn
    constructor
    · intro s hs
      simp [detectScript, rangeScriptOrLatin, hn, hs]
    · intro hs
      simp [detectScript, rangeScriptOrLatin, hn, hs]

/-- Witness for C2: an override sending '(' to korean is honoured, at a
concrete configuration and character. -/
theorem c2_detectScript_lookup_order_witness :
    detectScript
      { preserveWhitespace := true, minSegmentLength := 1,
        glyphOverrideMap := [(0x28, "korean")], languageOverrides := [],
        cssClasses := { wrapper := "", useShortNames := true,
                        scriptSpecific := [] } } 0x28 = "korean" :=
  (c2_detectScript_lookup_order _ 0x28 (by decide)).1 "korean" rfl

/-- C9: `wrapSegments` renders, in segment order, each trim-empty segment
as its raw text and every other segment as exactly
`<span lang="{lang}" data-script="{script}"{classAttr}>{text}</span>`,
where `{classAttr}` is `' class="{classes}"'` when the computed class list
is non-empty and absent otherwise, values inserted literally without
escaping (`renderSpecC9` spells out that format). -/
theorem c9_wrapSegments_rendering (cfg : Config) (segs : List Segment) :
    wrapSegments cfg segs = (segs.map (renderSpecC9 cfg)).flatten := by
  unfold wrapSegments
  rw [funext (wrapOne_eq_renderSpecC9 cfg)]

/-! ### Reconstruction up to dropped whitespace-only segments -/

theorem altJoin_snoc {ws ts : List (List Nat)} (h : ws.length = ts.length)
    (w t : List Nat) :
    altJoin (ws ++ [w]) (ts ++ [t]) = altJoin ws ts ++ w ++ t := by
  induction ws generalizing ts with
  | nil =>
    have : ts = [] := by
      cases ts with
      | nil => rfl
      | cons a b => simp at h
    subst this
    simp [altJoin]
  | cons w0 ws' ih =>
    cases ts with
    | nil => simp at h
    | cons t0 ts' =>
      have h' : ws'.length = ts'.length := by simpa using h
      simp only [altJoin, List.cons_append, List.zipWith_cons_cons,
        List.flatten_cons] at *
      rw [ih h']
      simp [List.append_assoc]

theorem jsTrim_nil_of_not_passes {cfg : Config} (hmin : cfg.minSegmentLength ≤ 1)
    {t : List Nat} (hp : passesFilter cfg t = false) : jsTrim t = [] := by
  have h1 : ¬ (jsTrim t ≠ [] ∧ cfg.minSegmentLength ≤ (jsTrim t).length) := by
    rw [← passesFilter_iff cfg t]
    simp [hp]
  by_cases h2 : jsTrim t = []
  · exact h2
  · exfalso
    apply h1
    refine ⟨h2, ?_⟩
    have : 0 < (jsTrim t).length := List.length_pos.mpr h2
    omega

theorem flushSeg_reconstruct {cfg : Config} (hmin : cfg.minSegmentLength ≤ 1)
    {st' : SegState} {ws : List (List Nat)} (pend : List (List Nat))
    {consumed : List Nat} :
    ws.length = st'.segments.length →
    (∀ u ∈ ws, ∀ x ∈ u, isJsWhitespace x = true) →
    (∀ x ∈ pend.flatten, isJsWhitespace x = true) →
    consumed = altJoin ws (st'.segments.map Segment.text) ++ pend.flatten ++
      st'.currentSegment →
    ∃ ws2 pend2 : List (List Nat),
      ws2.length = (flushSeg cfg st').length ∧
      (∀ u ∈ ws2, ∀ x ∈ u, isJsWhitespace x = true) ∧
      (∀ x ∈ pend2.flatten, isJsWhitespace x = true) ∧
      consumed = altJoin ws2 ((flushSeg cfg st').map Segment.text) ++ pend2.flatten := by
  intro hlen hws hpend hcons
  rcases flushSeg_spec cfg st' with ⟨hp, he⟩ | ⟨hp, he⟩
  · refine ⟨ws ++ [pend.flatten], [], ?_, ?_, by simp, ?_⟩
    · rw [he]
      simp [hlen]
    · intro u hu
      rcases List.mem_append.mp hu with h | h
      · exact hws u h
      · simp only [List.mem_singleton] at h
        subst h
        exact hpend
    · rw [he]
      simp only [List.map_append, List.map_cons, List.map_nil]
      rw [altJoin_snoc (by simpa using hlen)]
      simpa [List.append_assoc] using hcons
  · have hallws : ∀ x ∈ st'.currentSegment, isJsWhitespace x = true :=
      jsTrim_nil_all (jsTrim_nil_of_not_passes hmin hp)
    refine ⟨ws, pend ++ [st'.currentSegment], ?_, hws, ?_, ?_⟩
    · rw [he]
      exact hlen
    · intro x hx
      rw [List.flatten_append] at hx
      rcases List.mem_append.mp hx with h | h
      · exact hpend x h
      · simp only [List.flatten_cons, List.flatten_nil, List.append_nil] at h
        exact hallws x h
    · rw [he, hcons]
      simp [List.append_assoc]

theorem step_reconstruct {cfg : Config} (hmin : cfg.minSegmentLength ≤ 1)
    {st : SegState} {c : Nat} {rest consumed : List Nat}
    (h : Recon st consumed) : Recon (step cfg st c rest) (consumed ++ [c]) := by
  obtain ⟨ws, pend, hlen, hws, hpend, hcons⟩ := h
  obtain ⟨stMid, hmid, hout⟩ := step_shape cfg st c rest
  have hmidRec : ∃ ws1 pend1 : List (List Nat),
      ws1.length = stMid.segments.length ∧
      (∀ u ∈ ws1, ∀ x ∈ u, isJsWhitespace x = true) ∧
      (∀ x ∈ pend1.flatten, isJsWhitespace x = true) ∧
      consumed ++ [c] = altJoin ws1 (stMid.segments.map Segment.text) ++
        pend1.flatten ++ stMid.currentSegment := by
    rcases hmid with ⟨h1, h2, _, _⟩ | ⟨h1, h2, _⟩
    · refine ⟨ws, [pend], by rw [h1]; exact hlen, hws, by simpa using hpend, ?_⟩
      rw [h1, h2, hcons]
      simp [List.append_assoc]
    · obtain ⟨ws2, pend2, hl2, hw2, hp2, hc2⟩ :=
        flushSeg_reconstruct hmin [pend] hlen hws (by simpa using hpend)
          (by simpa using hcons)
      refine ⟨ws2, pend2, by rw [h1]; exact hl2, hw2, hp2, ?_⟩
      rw [h1, h2, hc2]
  obtain ⟨ws1, pend1, hl1, hw1, hp1, hc1⟩ := hmidRec
  rcases hout with he | ⟨h1, h2, _⟩
  · rw [he]
    exact ⟨ws1, pend1.flatten, hl1, hw1, hp1, hc1⟩
  · obtain ⟨ws2, pend2, hl2, hw2, hp2, hc2⟩ :=
      flushSeg_reconstruct hmin pend1 hl1 hw1 hp1 hc1
    refine ⟨ws2, pend2.flatten, by rw [h1]; exact hl2, hw2, hp2, ?_⟩
    rw [h1, h2]
    simpa using hc2

theorem segmentText_reconstruct (cfg : Config) (hmin : cfg.minSegmentLength ≤ 1)
    (text : List Nat) :
    ∃ (ws : List (List Nat)) (pend : List Nat),
      ws.length = (segmentText cfg text).length ∧
      (∀ u ∈ ws, ∀ x ∈ u, isJsWhitespace x = true) ∧
      (∀ x ∈ pend, isJsWhitespace x = true) ∧
      text = altJoin ws ((segmentText cfg text).map Segment.text) ++ pend := by
  have hloop : Recon (segLoop cfg text initState) text :=
    segLoop_ind_start cfg (fun _ => True) (fun st consumed => Recon st consumed)
      (fun st c rest consumed _ _ h => step_reconstruct hmin h) text
      (fun _ _ => trivial) ⟨[], [], rfl, by simp, by simp, rfl⟩
  obtain ⟨ws, pend, hlen, hws, hpend, hcons⟩ := hloop
  obtain ⟨ws2, pend2, hl2, hw2, hp2, hc2⟩ :=
    flushSeg_reconstruct hmin [pend] hlen hws (by simpa using hpend)
      (by simpa using hcons)
  exact ⟨ws2, pend2.flatten, hl2, hw2, hp2, hc2⟩

/-! ### Characters of a segment agree with the segment's script -/

theorem surrogate_not_wsp {c : Nat} (h1 : 0xD800 ≤ c) (h2 : c ≤ 0xDFFF) :
    isWSP c = false := by
  rw [Bool.eq_false_iff]
  intro hcon
  unfold isWSP isJsWhitespace punctRanges at hcon
  simp at hcon
  omega

theorem findScript_eq_none {l : List (String × List (Nat × Nat))} {c : Nat}
    (h : ∀ p ∈ l, p.2.any (fun r => decide (r.1 ≤ c) && decide (c ≤ r.2)) = false) :
    findScript l c = none := by
  induction l with
  | nil => rfl
  | cons p rest ih =>
    have hp := h p (List.mem_cons_self p rest)
    simp only [findScript, hp, Bool.false_eq_true, if_false]
    exact ih (fun q hq => h q (List.mem_cons_of_mem p hq))

theorem surrogate_detect_latin {c : Nat} (h1 : 0xD800 ≤ c) (h2 : c ≤ 0xDFFF) :
    detectScript defaultConfig c = "latin" := by
  have hf : findScript scriptRanges c = none := by
    apply findScript_eq_none
    intro p hp
    simp only [scriptRanges, List.mem_cons, List.not_mem_nil, or_false] at hp
    rcases hp with rfl | rfl | rfl | rfl | rfl | rfl | rfl | rfl | rfl | rfl <;>
      (rw [Bool.eq_false_iff]
       intro hcon
       simp at hcon
       omega)
  simp [detectScript, defaultConfig, lookupNat, rangeScriptOrLatin, hf]

theorem step_scripts {cfg : Config} {st : SegState} {c : Nat} {rest : List Nat}
    (h : (∀ seg ∈ st.segments, ∀ x ∈ seg.text,
        isWSP x = true ∨ some (detectScript cfg x) = seg.script) ∧
      (∀ x ∈ st.currentSegment,
        isWSP x = true ∨ some (detectScript cfg x) = st.currentScript)) :
    (∀ seg ∈ (step cfg st c rest).segments, ∀ x ∈ seg.text,
        isWSP x = true ∨ some (detectScript cfg x) = seg.script) ∧
      (∀ x ∈ (step cfg st c rest).currentSegment,
        isWSP x = true ∨
          some (detectScript cfg x) = (step cfg st c rest).currentScript) := by
  obtain ⟨hsegs, hcur⟩ := h
  obtain ⟨stMid, hmid, hout⟩ := step_shape cfg st c rest
  have hmid1 : ∀ seg ∈ stMid.segments, ∀ x ∈ seg.text,
      isWSP x = true ∨ some (detectScript cfg x) = seg.script := by
    rcases hmid with ⟨h1, _, _, _⟩ | ⟨h1, _, _⟩
    · rw [h1]
      exact hsegs
    · rw [h1]
      intro seg hseg
      rcases mem_flushSeg hseg with h2 | ⟨h2text, h2scr, _⟩
      · exact hsegs seg h2
      · intro x hx
        rw [h2text] at hx
        rcases hcur x hx with hw | hd
        · exact .inl hw
        · right
          rw [h2scr]
          exact hd
  have hmid2 : ∀ x ∈ stMid.currentSegment,
      isWSP x = true ∨ some (detectScript cfg x) = stMid.currentScript := by
    rcases hmid with ⟨_, h2, h3, h4⟩ | ⟨_, h2, h4⟩
    · rw [h2]
      intro x hx
      rcases List.mem_append.mp hx with hold | hnew
      · rcases hcur x hold with hw | hd
        · exact .inl hw
        · rcases h3 with hnone | hsame
          · rw [hnone] at hd
            simp at hd
          · right
            rw [hsame]
            exact hd
      · simp only [List.mem_singleton] at hnew
        subst hnew
        rcases h4 with hw | hscr
        · exact .inl hw
        · right
          rw [hscr]
    · rw [h2]
      intro x hx
      simp only [List.mem_singleton] at hx
      subst hx
      rcases h4 with hw | hscr
      · exact .inl hw
      · right
        rw [hscr]
  rcases hout with he | ⟨h1, h2, _⟩
  · rw [he]
    exact ⟨hmid1, hmid2⟩
  · constructor
    · rw [h1]
      intro seg hseg
      rcases mem_flushSeg hseg with h3 | ⟨h3text, h3scr, _⟩
      · exact hmid1 seg h3
      · intro x hx
        rw [h3text] at hx
        rcases hmid2 x hx with hw | hd
        · exact .inl hw
        · right
          rw [h3scr]
          exact hd
    · rw [h2]
      intro x hx
      simp at hx

theorem segmentText_scripts (cfg : Config) (text : List Nat) :
    ∀ seg ∈ segmentText cfg text, ∀ x ∈ seg.text,
      isWSP x = true ∨ some (detectScript cfg x) = seg.script := by
  have hloop := segLoop_ind_start cfg (fun _ => True)
    (fun st _ => (∀ seg ∈ st.segments, ∀ x ∈ seg.text,
        isWSP x = true ∨ some (detectScript cfg x) = seg.script) ∧
      (∀ x ∈ st.currentSegment,
        isWSP x = true ∨ some (detectScript cfg x) = st.currentScript))
    (fun st c rest consumed _ _ h => step_scripts h) text (fun _ _ => trivial)
    ⟨by intro seg hseg; simp [initState] at hseg,
     by intro x hx; simp [initState] at hx⟩
  intro seg hseg
  unfold segmentText at hseg
  rcases mem_flushSeg hseg with h2 | ⟨h2text, h2scr, _⟩
  · exact hloop.1 seg h2
  · intro x hx
    rw [h2text] at hx
    rcases hloop.2 x hx with hw | hd
    · exact .inl hw
    · right
      rw [h2scr]
      exact hd

/-- C1 amended: with the default configuration, the concatenation of the
untrimmed texts of the returned segments reconstructs the input exactly
except for dropped whitespace-only segments: the input is the segments'
texts in order, each preceded by a possibly-empty whitespace-only dropped
run, with a final possibly-empty whitespace-only dropped run. No
non-whitespace character is ever dropped, but an all-whitespace input
(e.g. a single space) yields no segments at all. -/
theorem c1_amended_reconstruction (text : List Nat) :
    ∃ (ws : List (List Nat)) (pend : List Nat),
      ws.length = (segmentText defaultConfig text).length ∧
      (∀ u ∈ ws, ∀ x ∈ u, isJsWhitespace x = true) ∧
      (∀ x ∈ pend, isJsWhitespace x = true) ∧
      text = altJoin ws ((segmentText defaultConfig text).map Segment.text) ++ pend :=
  segmentText_reconstruct defaultConfig (by decide) text

/-- C10: `segmentText` walks UTF-16 code units, so a supplementary-plane
character such as U+20000 (in the configured chinese range) is seen as two
lone surrogates, each of which lies in no range and classifies as latin;
consequently no segment whose script is `chinese` can contain a surrogate
code unit, even though `detectScript` on the full code point returns
`chinese`. -/
theorem c10_surrogate_units :
    detectScript defaultConfig 0x20000 = "chinese" ∧
    detectScript defaultConfig 0xD840 = "latin" ∧
    detectScript defaultConfig 0xDC00 = "latin" ∧
    ∀ (text : List Nat) (seg : Segment) (c : Nat),
      seg ∈ segmentText defaultConfig text → seg.script = some "chinese" →
      c ∈ seg.text → ¬(0xD800 ≤ c ∧ c ≤ 0xDFFF) := by
  refine ⟨rfl, rfl, rfl, ?_⟩
  intro text seg c hseg hscr hc hcon
  rcases segmentText_scripts defaultConfig text seg hseg c hc with hw | hd
  · rw [surrogate_not_wsp hcon.1 hcon.2] at hw
    cases hw
  · rw [surrogate_detect_latin hcon.1 hcon.2, hscr] at hd
    simp at hd

/-- Witness for C10, applying the invariant to the one-ideograph input
U+4E00 whose single segment is chinese. -/
theorem c10_surrogate_units_witness :
    ¬(0xD800 ≤ 0x4E00 ∧ 0x4E00 ≤ 0xDFFF) :=
  c10_surrogate_units.2.2.2 [0x4E00]
    { text := [0x4E00], script := some "chinese", lang := some "zh" } 0x4E00
    (by decide) rfl (by decide)

/-! ### Single-script inputs produce exactly one segment -/

theorem setNullScript_pairStack (cs : Option String) (st : SegState) :
    (setNullScript cs st).pairStack = st.pairStack := by
  unfold setNullScript
  split <;> rfl

theorem appendChar_lastNonWS (c : Nat) (st : SegState) :
    (appendChar c st).lastNonWS = st.lastNonWS := rfl

theorem appendChar_pairStack (c : Nat) (st : SegState) :
    (appendChar c st).pairStack = st.pairStack := rfl

theorem forceCloseIf_false (cfg : Config) (st : SegState) :
    forceCloseIf cfg false st = st := rfl

theorem lookupPair_isSome_mem {l : List (Nat × Nat)} {c : Nat}
    (h : (lookupPair l c).isSome = true) : ∃ p ∈ l, p.1 = c := by
  induction l with
  | nil => simp [lookupPair] at h
  | cons p rest ih =>
    simp only [lookupPair] at h
    by_cases hp : p.1 = c
    · exact ⟨p, List.mem_cons_self p rest, hp⟩
    · rw [if_neg hp] at h
      obtain ⟨q, hq, he⟩ := ih h
      exact ⟨q, List.mem_cons_of_mem p hq, he⟩

theorem pairedLookup_detect (c : Nat) (h : (pairedLookup c).isSome = true) :
    detectScript defaultConfig c = "latin" := by
  obtain ⟨p, hp, he⟩ := lookupPair_isSome_mem h
  subst he
  simp only [pairedPunctuation, List.mem_cons, List.not_mem_nil, or_false] at hp
  rcases hp with rfl | rfl | rfl | rfl | rfl | rfl | rfl | rfl | rfl | rfl | rfl |
    rfl | rfl <;> rfl

theorem closingLookup_detect (c : Nat) (h : (closingLookup c).isSome = true) :
    detectScript defaultConfig c = "latin" := by
  unfold closingLookup at h
  obtain ⟨p, hp, he⟩ := lookupPair_isSome_mem h
  subst he
  simp only [pairedPunctuation, List.map_cons, List.map_nil, List.mem_cons,
    List.not_mem_nil, or_false] at hp
  rcases hp with rfl | rfl | rfl | rfl | rfl | rfl | rfl | rfl | rfl | rfl | rfl |
    rfl | rfl <;> rfl

theorem lookDiff_all_same {s : String} : ∀ {rest : List Nat},
    (∀ x ∈ rest, detectScript defaultConfig x = s) →
    lookDiff defaultConfig (some s) rest = false := by
  intro rest
  induction rest with
  | nil => intro _; rfl
  | cons c r ih =>
    intro h
    simp only [lookDiff]
    by_cases hw : isWSP c = true
    · rw [if_pos hw]
      exact ih (fun x hx => h x (List.mem_cons_of_mem c hx))
    · rw [if_neg hw]
      rw [h c (List.mem_cons_self c r)]
      simp

theorem removeLastMatch_spec : ∀ {stk : List (Nat × String)} {op : Nat}
    {pr : String × List (Nat × String)}, removeLastMatch stk op = some pr →
    (∃ e ∈ stk, e.2 = pr.1) ∧ (∀ e ∈ pr.2, e ∈ stk) := by
  intro stk
  induction stk with
  | nil => intro op pr h; simp [removeLastMatch] at h
  | cons e rest ih =>
    intro op pr h
    simp only [removeLastMatch] at h
    cases hrm : removeLastMatch rest op with
    | some pr2 =>
      rw [hrm] at h
      obtain ⟨hspec1, hspec2⟩ := ih hrm
      have hpr : pr = (pr2.1, e :: pr2.2) := (Option.some.inj h).symm
      rw [hpr]
      constructor
      · obtain ⟨q, hq, hq2⟩ := hspec1
        exact ⟨q, List.mem_cons_of_mem e hq, hq2⟩
      · intro q hq
        rcases List.mem_cons.mp hq with rfl | hq2
        · exact List.mem_cons_self q rest
        · exact List.mem_cons_of_mem e (hspec2 q hq2)
    | none =>
      rw [hrm] at h
      by_cases he : e.1 = op
      · rw [if_pos he] at h
        have hpr : pr = (e.2, rest) := (Option.some.inj h).symm
        rw [hpr]
        exact ⟨⟨e, List.mem_cons_self e rest, rfl⟩,
          fun q hq => List.mem_cons_of_mem e hq⟩
      · rw [if_neg he] at h
        cases h

theorem c6_classify {s : String} {st : SegState} {c : Nat}
    (hc : detectScript defaultConfig c = s)
    (hscr : st.currentScript = none ∨ st.currentScript = some s)
    (hlnw : st.lastNonWS = none ∨ st.lastNonWS = some s)
    (hstk : ∀ e ∈ st.pairStack, e.2 = s) :
    ((classifyPunct defaultConfig st c).1 = none ∨
      (classifyPunct defaultConfig st c).1 = some s) ∧
    ((closingLookup c).isSome = true →
      (classifyPunct defaultConfig st c).1 = some s) ∧
    (classifyPunct defaultConfig st c).2.segments = st.segments ∧
    (classifyPunct defaultConfig st c).2.currentSegment = st.currentSegment ∧
    ((classifyPunct defaultConfig st c).2.currentScript = none ∨
      (classifyPunct defaultConfig st c).2.currentScript = some s) ∧
    (classifyPunct defaultConfig st c).2.lastNonWS = st.lastNonWS ∧
    (∀ e ∈ (classifyPunct defaultConfig st c).2.pairStack, e.2 = s) := by
  have hctx : contextScript st = s ∨
      (contextScript st = "latin" ∧ st.currentScript = none ∧
        st.lastNonWS = none) := by
    unfold contextScript
    rcases hscr with h1 | h1
    · rw [h1]
      rcases hlnw with h2 | h2
      · rw [h2]
        exact .inr ⟨rfl, rfl, rfl⟩
      · rw [h2]
        exact .inl rfl
    · rw [h1]
      exact .inl rfl
  by_cases hp : (pairedLookup c).isSome = true
  · have hlat := pairedLookup_detect c hp
    have hs : contextScript st = s := by
      rcases hctx with h1 | ⟨h1, _, _⟩
      · exact h1
      · rw [h1, ← hc, hlat]
    have hC : classifyPunct defaultConfig st c =
        (some (contextScript st),
         { st with pairStack := st.pairStack ++ [(c, contextScript st)] }) := by
      simp only [classifyPunct, hp, if_true]
    rw [hC]
    refine ⟨.inr (by rw [hs]), fun _ => by rw [hs], rfl, rfl, hscr, rfl, ?_⟩
    intro e he
    rcases List.mem_append.mp he with h1 | h1
    · exact hstk e h1
    · simp only [List.mem_singleton] at h1
      rw [h1, hs]
  · cases hcl : closingLookup c with
    | none =>
      rcases hscr with hsc | hsc
      · have hC : classifyPunct defaultConfig st c = (st.lastNonWS, st) := by
          simp [classifyPunct, hp, hcl, hsc]
        rw [hC]
        refine ⟨hlnw, ?_, rfl, rfl, .inl hsc, rfl, hstk⟩
        intro habs
        simp at habs
      · have hC : classifyPunct defaultConfig st c = (some s, st) := by
          simp [classifyPunct, hp, hcl, hsc]
        rw [hC]
        exact ⟨.inr rfl, fun _ => rfl, rfl, rfl, .inr hsc, rfl, hstk⟩
    | some op =>
      have hlat := closingLookup_detect c (by rw [hcl]; rfl)
      have hseq : s = "latin" := by rw [← hc, hlat]
      cases hrm : removeLastMatch st.pairStack op with
      | some pr =>
        have hspec := removeLastMatch_spec hrm
        have hpr1 : pr.1 = s := by
          obtain ⟨⟨e, he, he2⟩, _⟩ := hspec
          rw [← he2]
          exact hstk e he
        have hnoflush : closeOnScript defaultConfig pr.1
            { st with pairStack := pr.2 } = { st with pairStack := pr.2 } := by
          unfold closeOnScript
          rcases hscr with h1 | h1
          · simp [h1]
          · simp [h1, hpr1]
        have hC : classifyPunct defaultConfig st c =
            (some pr.1, { st with pairStack := pr.2 }) := by
          simp only [classifyPunct, hp, Bool.false_eq_true, if_false, hcl, hrm,
            hnoflush]
        rw [hC]
        refine ⟨.inr (by rw [hpr1]), fun _ => by rw [hpr1], rfl, rfl, hscr, rfl, ?_⟩
        intro e he
        exact hstk e (hspec.2 e he)
      | none =>
        have hs : contextScript st = s := by
          rcases hctx with h1 | ⟨h1, _, _⟩
          · exact h1
          · rw [h1, hseq]
        have hnoflush : closeOnScript defaultConfig (contextScript st) st = st := by
          unfold closeOnScript
          rcases hscr with h1 | h1
          · simp [h1]
          · simp [h1, hs]
        have hC : classifyPunct defaultConfig st c =
            (some (contextScript st), st) := by
          simp only [classifyPunct, hp, Bool.false_eq_true, if_false, hcl, hrm,
            hnoflush]
        rw [hC]
        exact ⟨.inr (by rw [hs]), fun _ => by rw [hs], rfl, rfl, hscr, rfl, hstk⟩

theorem c6_step {s : String} {st : SegState} {c : Nat} {rest consumed : List Nat}
    (hc : detectScript defaultConfig c = s)
    (hrest : ∀ x ∈ rest, detectScript defaultConfig x = s)
    (h : st.segments = [] ∧ st.currentSegment = consumed ∧
      (st.currentScript = none ∨ st.currentScript = some s) ∧
      (st.lastNonWS = none ∨ st.lastNonWS = some s) ∧
      (∀ e ∈ st.pairStack, e.2 = s)) :
    (step defaultConfig st c rest).segments = [] ∧
    (step defaultConfig st c rest).currentSegment = consumed ++ [c] ∧
    ((step defaultConfig st c rest).currentScript = none ∨
      (step defaultConfig st c rest).currentScript = some s) ∧
    ((step defaultConfig st c rest).lastNonWS = none ∨
      (step defaultConfig st c rest).lastNonWS = some s) ∧
    (∀ e ∈ (step defaultConfig st c rest).pairStack, e.2 = s) := by
  obtain ⟨hseg, hcur, hscr, hlnw, hstk⟩ := h
  by_cases hw : (defaultConfig.preserveWhitespace && isWSP c) = true
  · rw [step_eq_stepWSP st rest hw]
    obtain ⟨hq1, hq1c, hq2s, hq2c, hq2scr, hq2l, hq2k⟩ :=
      c6_classify hc hscr hlnw hstk
    have hsw : stepWSP defaultConfig st c rest =
        forceCloseIf defaultConfig
          ((closingLookup c).isSome &&
            decide ((classifyPunct defaultConfig st c).1 ≠
              (appendChar c (setNullScript (classifyPunct defaultConfig st c).1
                (classifyPunct defaultConfig st c).2)).lastNonWS) &&
            lookDiff defaultConfig (classifyPunct defaultConfig st c).1 rest)
          (appendChar c (setNullScript (classifyPunct defaultConfig st c).1
            (classifyPunct defaultConfig st c).2)) := rfl
    rw [hsw]
    have hfc : ((closingLookup c).isSome &&
        decide ((classifyPunct defaultConfig st c).1 ≠
          (appendChar c (setNullScript (classifyPunct defaultConfig st c).1
            (classifyPunct defaultConfig st c).2)).lastNonWS) &&
        lookDiff defaultConfig (classifyPunct defaultConfig st c).1 rest) = false := by
      by_cases hcls : (closingLookup c).isSome = true
      · have hp1 := hq1c hcls
        rw [hp1, lookDiff_all_same hrest]
        simp
      · have hne : (closingLookup c).isSome = false := by
          rwa [Bool.not_eq_true] at hcls
        rw [hne]
        simp
    rw [hfc, forceCloseIf_false]
    refine ⟨?_, ?_, ?_, ?_, ?_⟩
    · rw [appendChar_segments, setNullScript_segments, hq2s, hseg]
    · rw [appendChar_currentSegment, setNullScript_currentSegment, hq2c, hcur]
    · rw [appendChar_script]
      rcases setNullScript_script (classifyPunct defaultConfig st c).1
        (classifyPunct defaultConfig st c).2 with h5 | ⟨_, h5⟩
      · rw [h5]
        exact hq2scr
      · rw [h5]
        exact hq1
    · rw [appendChar_lastNonWS, setNullScript_lastNonWS, hq2l]
      exact hlnw
    · rw [appendChar_pairStack, setNullScript_pairStack]
      exact hq2k
  · rw [step_eq_stepChar st rest hw]
    rcases hscr with hsc | hsc
    · have hC : stepChar defaultConfig st c =
          { st with lastNonWS := some (detectScript defaultConfig c),
                    currentScript := some (detectScript defaultConfig c),
                    currentSegment := st.currentSegment ++ [c] } := by
        simp [stepChar, hsc]
      rw [hC, hc]
      exact ⟨hseg, by rw [hcur], .inr rfl, .inr rfl, hstk⟩
    · have hC : stepChar defaultConfig st c =
          { st with lastNonWS := some (detectScript defaultConfig c),
                    currentSegment := st.currentSegment ++ [c] } := by
        simp [stepChar, hsc, hc]
      rw [hC, hc]
      exact ⟨hseg, by rw [hcur], .inr hsc, .inr rfl, hstk⟩

/-- C6: a non-empty input all of whose code units classify to one script
`s` under the default configuration, and whose trimmed text is non-empty,
yields exactly one segment whose text is the whole input; hence
segmenting that one segment's text again returns the very same single
segment (idempotence on single-script text). -/
theorem c6_single_script_idempotent (text : List Nat) (s : String)
    (_hne : text ≠ [])
    (hall : ∀ x ∈ text, detectScript defaultConfig x = s)
    (htrim : jsTrim text ≠ []) :
    ∃ seg : Segment, segmentText defaultConfig text = [seg] ∧
      seg.text = text ∧ segmentText defaultConfig seg.text = [seg] := by
  have hloop := segLoop_ind_start defaultConfig
    (fun x => detectScript defaultConfig x = s)
    (fun st consumed => st.segments = [] ∧ st.currentSegment = consumed ∧
      (st.currentScript = none ∨ st.currentScript = some s) ∧
      (st.lastNonWS = none ∨ st.lastNonWS = some s) ∧
      (∀ e ∈ st.pairStack, e.2 = s))
    (fun st c rest consumed hc hr h => c6_step hc hr h) text hall
    ⟨rfl, rfl, .inl rfl, .inl rfl, by intro e he; simp [initState] at he⟩
  obtain ⟨hseg0, hcur0, _, _, _⟩ := hloop
  have hpass : passesFilter defaultConfig
      (segLoop defaultConfig text initState).currentSegment = true := by
    rw [hcur0, passesFilter_iff]
    refine ⟨htrim, ?_⟩
    have : 0 < (jsTrim text).length := List.length_pos.mpr htrim
    simp only [defaultConfig]
    omega
  rcases flushSeg_spec defaultConfig (segLoop defaultConfig text initState) with
    ⟨_, he⟩ | ⟨hp, _⟩
  · have h1 : segmentText defaultConfig text =
        [{ text := (segLoop defaultConfig text initState).currentSegment,
           script := (segLoop defaultConfig text initState).currentScript,
           lang := mkLang defaultConfig
             (segLoop defaultConfig text initState).currentScript }] := by
      unfold segmentText
      rw [he, hseg0]
      rfl
    rw [hcur0] at h1
    exact ⟨_, h1, rfl, h1⟩
  · rw [hpass] at hp
    cases hp

/-- Witness for C6 at the one-character korean input "가". -/
theorem c6_single_script_idempotent_witness :
    ([0xAC00] : List Nat) ≠ [] ∧
    (∀ x ∈ ([0xAC00] : List Nat), detectScript defaultConfig x = "korean") ∧
    jsTrim [0xAC00] ≠ [] ∧
    ∃ seg : Segment, segmentText defaultConfig [0xAC00] = [seg] ∧
      seg.text = [0xAC00] ∧ segmentText defaultConfig seg.text = [seg] :=
  ⟨by decide, by decide, by decide,
   c6_single_script_idempotent [0xAC00] "korean" (by decide) (by decide)
     (by decide)⟩

end Multilingual
